import Mathlib

/-!
Verification of the TestOps Copilot frontend core (`src/frontend/src/App.tsx`).

Strings are embedded as `List Char` (JavaScript strings viewed as character
sequences); machine-level UTF-16 code-unit details do not matter for the
properties considered here, since all relevant text is in the Basic
Multilingual Plane.  Stateful React code (the `history` state, `localStorage`,
the `loading` flag, the `output` surface) is embedded as explicit state passing
over an `AppState` record, and effects that can throw (`JSON.parse`) return
`Except`.
-/

namespace TestOps

/-- Lowercasing as performed by JavaScript `String.prototype.toLowerCase`,
restricted to the character ranges that occur in this application (ASCII
letters and Cyrillic); all other characters are unchanged, matching the
Unicode simple lowercase mapping on those ranges. -/
def jsToLower (c : Char) : Char :=
  if 'A' ≤ c ∧ c ≤ 'Z' then Char.ofNat (c.toNat + 32)
  else if 'А' ≤ c ∧ c ≤ 'Я' then Char.ofNat (c.toNat + 32)
  else if c = 'Ё' then 'ё'
  else c

/-- Whitespace as recognised by JavaScript `String.prototype.trim` (space,
tab, line feed, carriage return, vertical tab, form feed, no-break space). -/
def isJsWhitespace (c : Char) : Bool :=
  c = ' ' || c = '\t' || c = '\n' || c = '\r' ||
  c.toNat = 11 || c.toNat = 12 || c.toNat = 160

/-- JavaScript `String.prototype.trim`: drop whitespace from both ends. -/
def trimList (l : List Char) : List Char :=
  ((l.dropWhile isJsWhitespace).reverse.dropWhile isJsWhitespace).reverse

/-- The `info` object of the synthesized OpenAPI document (`App.tsx` lines
27-31). -/
structure OpenAPIInfo where
  title : List Char
  version : List Char
  description : List Char
  deriving DecidableEq

/-- A response entry of the fixed placeholder path (`App.tsx` lines 36-38). -/
structure ResponseSpec where
  description : List Char
  deriving DecidableEq

/-- An operation of the fixed placeholder path (`App.tsx` lines 34-40). -/
structure OperationSpec where
  responses : List (List Char × ResponseSpec)
  deriving DecidableEq

/-- A path item of the synthesized document (`App.tsx` lines 33-41). -/
structure PathItem where
  get : OperationSpec
  deriving DecidableEq

/-- The synthesized OpenAPI document (`App.tsx` lines 25-43). -/
structure OpenAPISpec where
  openapi : List Char
  info : OpenAPIInfo
  paths : List (List Char × PathItem)
  deriving DecidableEq

/-- `createOpenAPIFromText` from `App.tsx` lines 24-44: the Spec Synthesizer.
The title is the fixed text `TestOps - ` followed by `text.substring(0, 30)`
and, when `text.length > 30`, the three-character ellipsis marker `...`; the
description is the full input text. -/
def createOpenAPIFromText (text : List Char) : OpenAPISpec :=
  { openapi := "3.0.0".toList
  , info :=
      { title := "TestOps - ".toList ++ text.take 30 ++
          (if 30 < text.length then "...".toList else [])
      , version := "1.0.0".toList
      , description := text }
  , paths :=
      [("/test".toList,
        { get := { responses :=
            [("200".toList,
              { description := "Auto-generated test endpoint".toList })] } })] }

/-- Test whether the first list is an initial segment of the second. -/
def beginsWith : List Char → List Char → Bool
  | [], _ => true
  | _ :: _, [] => false
  | a :: as, b :: bs => a == b && beginsWith as bs

/-- JavaScript `String.prototype.includes`: `includes l sub` is true when
`sub` occurs contiguously anywhere inside `l`. -/
def includes (l sub : List Char) : Bool :=
  match l with
  | [] => sub.isEmpty
  | _ :: rest => beginsWith sub l || includes rest sub

/-- `sub` occurs contiguously inside `l` (the specification-level reading of
substring containment). -/
def SubstringOf (sub l : List Char) : Prop :=
  ∃ p t, l = p ++ sub ++ t

/-- `getTestType` from `App.tsx` lines 46-52: the Mode Classifier.  Lowercase
the text and test for the fixed UI keywords by bare substring containment
(JavaScript `String.prototype.includes`). -/
def getTestType (text : List Char) : List Char :=
  let lower := text.map jsToLower
  if includes lower ("ui".toList) ||
     includes lower ("интерфейс".toList) ||
     includes lower ("калькулятор".toList) then
    "manual_ui".toList
  else
    "auto_api".toList

/-- One history entry (`App.tsx` lines 55-59).  The creation instant
`new Date().toISOString()` is embedded as a logical clock value that advances
with every record operation. -/
structure HistoryItem where
  timestamp : Nat
  requirements : List Char
  code : List Char
  deriving DecidableEq

/-- Content of the `testops_history` key of `localStorage`, classified by how
JavaScript `JSON.parse` behaves on the stored string.  The application itself
only ever stores `JSON.stringify` of an entry list (`good`).  A foreign
string in the medium is either `jsonOther` — a valid JSON text (such as
`42`, `null` or an object) whose parsed value is not an entry array; valid
JSON text is never empty — or `invalid` — a text on which `JSON.parse`
throws a syntax error (this includes the empty string, which the mount
effect's truthiness check skips before parsing). -/
inductive StoredValue where
  | good (entries : List HistoryItem)
  | jsonOther (raw : List Char)
  | invalid (raw : List Char)
  deriving DecidableEq

/-- The relevant mutable state of the `App` component: the two text surfaces,
the `loading` flag, the in-memory `history` state, the persistence medium,
and the logical clock feeding timestamps. -/
structure AppState where
  input : List Char
  output : List Char
  loading : Bool
  history : List HistoryItem
  storage : Option StoredValue
  clock : Nat
  deriving DecidableEq

/-- The component's state at mount (`App.tsx` lines 5-8): empty input, the
placeholder output, not loading, empty history, before any persistence
interaction. -/
def initState : AppState :=
  { input := []
  , output := "Здесь появится Python-код в формате Allure TestOps as Code".toList
  , loading := false
  , history := []
  , storage := none
  , clock := 0 }

/-- `saveToHistory` from `App.tsx` lines 54-64: build the new entry with the
code truncated via `code.substring(0, 500)` plus an ellipsis marker when
`code.length > 500`, prepend it to `history.slice(0, 9)`, store the result in
the component state and in `localStorage`. -/
def saveToHistory (requirements code : List Char) (s : AppState) : AppState :=
  let newHistoryItem : HistoryItem :=
    { timestamp := s.clock
    , requirements := requirements
    , code := code.take 500 ++ (if 500 < code.length then "...".toList else []) }
  let updatedHistory := newHistoryItem :: s.history.take 9
  { s with history := updatedHistory
         , storage := some (StoredValue.good updatedHistory)
         , clock := s.clock + 1 }

/-- `clearHistory` from `App.tsx` lines 130-133: `setHistory([])` and
`localStorage.removeItem('testops_history')`. -/
def clearHistory (s : AppState) : AppState :=
  { s with history := [], storage := none }

/-- What the component's `history` cell holds after the mount effect ran:
either a proper entry list, or — when `JSON.parse` succeeded on a stored
text of the wrong shape — the parsed malformed value, which `setHistory`
installs unchecked.  The malformed value is represented by its JSON source
text, since the program never inspects it before using it as an array. -/
inductive HistoryCell where
  | wellTyped (entries : List HistoryItem)
  | malformed (raw : List Char)
  deriving DecidableEq

/-- The history-loading part of the mount effect (`App.tsx` lines 18-21):
`localStorage.getItem` returns `none` when the key is absent, and an empty
stored string is falsy, so both leave `history` at its current value;
otherwise `setHistory(JSON.parse(savedHistory))` runs — a stored well-formed
list is installed, any other valid JSON text is parsed successfully and its
malformed value is silently installed, and a text that is not valid JSON
makes `JSON.parse` throw, which this embedding reports as `Except.error`. -/
def loadSavedHistory (stored : Option StoredValue) (current : List HistoryItem) :
    Except (List Char) HistoryCell :=
  match stored with
  | none => Except.ok (HistoryCell.wellTyped current)
  | some (StoredValue.good entries) => Except.ok (HistoryCell.wellTyped entries)
  | some (StoredValue.jsonOther raw) => Except.ok (HistoryCell.malformed raw)
  | some (StoredValue.invalid raw) =>
      if raw = [] then Except.ok (HistoryCell.wellTyped current)
      else Except.error raw

/-- The history-store operations a run of the application can perform:
`saveToHistory` (called on generation success), the mount-effect load, and
`clearHistory`. -/
inductive HOp where
  | record (requirements code : List Char)
  | load
  | clear

/-- One history-store operation applied to the component state.  A `load`
that hits an unparseable persisted value propagates the `JSON.parse` error,
and a `load` that installs a malformed value leaves the well-typed state
space this machine ranges over, so it likewise ends the modelled run;
neither case is reachable from the initial state, since the application only
ever persists well-formed logs (proved below as part of the invariant). -/
def stepH (s : AppState) : HOp → Except (List Char) AppState
  | HOp.record requirements code => Except.ok (saveToHistory requirements code s)
  | HOp.load =>
      match loadSavedHistory s.storage s.history with
      | Except.ok (HistoryCell.wellTyped h) => Except.ok { s with history := h }
      | Except.ok (HistoryCell.malformed raw) => Except.error raw
      | Except.error e => Except.error e
  | HOp.clear => Except.ok (clearHistory s)

/-- A sequence of history-store operations, aborted at the first error. -/
def runH (s : AppState) : List HOp → Except (List Char) AppState
  | [] => Except.ok s
  | op :: ops =>
      match stepH s op with
      | Except.ok s' => runH s' ops
      | Except.error e => Except.error e

/-- The parsed JSON body the backend returns (`App.tsx` lines 95-102): a
`status` discriminator, the generated code text, and an optional `message`
used on failure. -/
structure BackendResponse where
  status : List Char
  code_text : List Char
  message : Option (List Char)
  deriving DecidableEq

/-- Outcome of the `fetch` call and response decoding as observed by
`handleGenerate`: a parsed body, a non-ok HTTP status (`App.tsx` lines 91-93),
a rejected `fetch` (network failure), or a rejected `response.json()`. -/
inductive FetchOutcome where
  | ok (data : BackendResponse)
  | httpError (status : Nat) (statusText : List Char)
  | networkError (message : List Char)
  | jsonError (message : List Char)
  deriving DecidableEq

/-- JavaScript `a || b` on an optional string: the fallback is used when the
field is absent or is the empty (falsy) string. -/
def jsOrElse (x : Option (List Char)) (fallback : List Char) : List Char :=
  match x with
  | none => fallback
  | some m => if m = [] then fallback else m

/-- The output text built by the `catch` branch (`App.tsx` line 104). -/
def errorOutput (m : List Char) : List Char :=
  "Ошибка: ".toList ++ m ++ "\n\nНеверный формат требования".toList

/-- The request body sent to the backend (`App.tsx` lines 85-88): the
synthesized spec together with the classified test type. -/
def generateRequestBody (text : List Char) : OpenAPISpec × List Char :=
  (createOpenAPIFromText text, getTestType text)

/-- The synchronous beginning of `handleGenerate` (`App.tsx` lines 66-74), up
to the suspension point at `fetch`: trim the input; on empty input set the
prompt message and stop; otherwise raise the `loading` flag, set the progress
message, and start a dispatch.  The boolean reports whether a dispatch
started. -/
def handleGenerateStart (s : AppState) : AppState × Bool :=
  let text := trimList s.input
  if text = [] then
    ({ s with output := "Введите описание требований".toList }, false)
  else
    ({ s with loading := true
            , output := "Отправка запроса на сервер...".toList }, true)

/-- The continuation of `handleGenerate` after the `fetch` resolves
(`App.tsx` lines 91-108): on an ok response with `status == "success"` show
the code and record it in history; on any other `status` show the backend
message (with the generic fallback); a non-ok HTTP status, a network error or
a JSON decoding error is caught and shown via `errorOutput`; the `finally`
block always clears the `loading` flag. -/
def resolveGenerate (s : AppState) (outcome : FetchOutcome) : AppState :=
  let text := trimList s.input
  let s2 :=
    match outcome with
    | FetchOutcome.ok data =>
        if data.status = "success".toList then
          saveToHistory text data.code_text { s with output := data.code_text }
        else
          { s with output := "Ошибка бекенда: ".toList ++
              jsOrElse data.message ("Неизвестная ошибка".toList) }
    | FetchOutcome.httpError st stxt =>
        { s with output :=
            errorOutput ("HTTP ".toList ++ (toString st).toList ++
              ": ".toList ++ stxt) }
    | FetchOutcome.networkError m => { s with output := errorOutput m }
    | FetchOutcome.jsonError m => { s with output := errorOutput m }
  { s2 with loading := false }

/-- A whole run of `handleGenerate` for a given fetch outcome: the start part
followed, when a dispatch actually started, by the resolution part. -/
def handleGenerate (s : AppState) (outcome : FetchOutcome) : AppState :=
  match handleGenerateStart s with
  | (s1, true) => resolveGenerate s1 outcome
  | (s1, false) => s1

/-- The generate button (`App.tsx` lines 158-164): it is rendered with
`disabled={loading}`, so a click while `loading` is true does nothing;
otherwise it invokes `handleGenerate`.  The boolean reports whether a
dispatch started. -/
def clickGenerate (s : AppState) : AppState × Bool :=
  if s.loading then (s, false) else handleGenerateStart s

/-- The textarea `onKeyDown` handler (`App.tsx` lines 151-155): on
Ctrl+Enter or Meta+Enter it invokes `handleGenerate` unconditionally — the
`loading` flag is not consulted.  The boolean reports whether a dispatch
started. -/
def onKeyDown (s : AppState) (key : List Char) (ctrlKey metaKey : Bool) :
    AppState × Bool :=
  if key = "Enter".toList && (ctrlKey || metaKey) then
    handleGenerateStart s
  else
    (s, false)

/-! ### Helper lemmas -/

theorem beginsWith_iff (sub : List Char) : ∀ l : List Char,
    beginsWith sub l = true ↔ ∃ t, l = sub ++ t := by
  induction sub with
  | nil =>
      intro l
      simp [beginsWith]
  | cons a as ih =>
      intro l
      cases l with
      | nil => simp [beginsWith]
      | cons b bs =>
          simp only [beginsWith, Bool.and_eq_true, beq_iff_eq, ih bs,
            List.cons_append, List.cons.injEq]
          constructor
          · rintro ⟨hab, t, ht⟩
            exact ⟨t, hab.symm, ht⟩
          · rintro ⟨t, hba, ht⟩
            exact ⟨hba.symm, t, ht⟩

theorem includes_iff : ∀ l sub : List Char,
    includes l sub = true ↔ SubstringOf sub l := by
  intro l
  induction l with
  | nil =>
      intro sub
      simp only [includes, SubstringOf, List.isEmpty_iff]
      constructor
      · rintro rfl
        exact ⟨[], [], rfl⟩
      · rintro ⟨p, t, h⟩
        rcases List.append_eq_nil.mp h.symm with ⟨h1, h2⟩
        rcases List.append_eq_nil.mp h1 with ⟨-, h3⟩
        exact h3
  | cons c rest ih =>
      intro sub
      simp only [includes, Bool.or_eq_true]
      constructor
      · rintro (hb | hi)
        · rcases (beginsWith_iff sub (c :: rest)).mp hb with ⟨t, ht⟩
          exact ⟨[], t, by simpa using ht⟩
        · rcases (ih sub).mp hi with ⟨p, t, ht⟩
          exact ⟨c :: p, t, by simp [ht]⟩
      · rintro ⟨p, t, hpt⟩
        cases p with
        | nil =>
            exact Or.inl ((beginsWith_iff sub (c :: rest)).mpr ⟨t, by simpa using hpt⟩)
        | cons x xs =>
            simp only [List.cons_append, List.cons.injEq] at hpt
            exact Or.inr ((ih sub).mpr ⟨xs, t, hpt.2⟩)

/-- The history log is ordered newest-first: along the list, every later
entry was created strictly earlier. -/
def newestFirst (l : List HistoryItem) : Prop :=
  l.Pairwise (fun a b => b.timestamp < a.timestamp)

/-- A well-formed history log with respect to the current clock value:
bounded by 10 entries, newest-first, and every entry created before now. -/
def goodLog (now : Nat) (l : List HistoryItem) : Prop :=
  l.length ≤ 10 ∧ newestFirst l ∧ ∀ e ∈ l, e.timestamp < now

/-- The history invariant of the component state: the in-memory log is
well formed, and the persistence medium holds nothing but a well-formed
stored log. -/
def InvH (s : AppState) : Prop :=
  goodLog s.clock s.history ∧
  ∀ v, s.storage = some v → ∃ l, v = StoredValue.good l ∧ goodLog s.clock l

theorem goodLog_mono {m n : Nat} {l : List HistoryItem} (h : m ≤ n)
    (hg : goodLog m l) : goodLog n l :=
  ⟨hg.1, hg.2.1, fun e he => lt_of_lt_of_le (hg.2.2 e he) h⟩

theorem invH_init : InvH initState := by
  refine ⟨⟨by simp [initState], by simp [initState, newestFirst], ?_⟩, ?_⟩
  · intro e he
    simp [initState] at he
  · intro v hv
    simp [initState] at hv

theorem goodLog_record {s : AppState} (hs : goodLog s.clock s.history)
    (requirements code : List Char) :
    goodLog (s.clock + 1) ((saveToHistory requirements code s).history) := by
  obtain ⟨hlen, hpw, hts⟩ := hs
  refine ⟨?_, ?_, ?_⟩
  · simp only [saveToHistory, List.length_cons, List.length_take]
    omega
  · refine List.pairwise_cons.mpr ⟨?_, ?_⟩
    · intro b hb
      exact hts b ((List.take_sublist 9 s.history).subset hb)
    · exact List.Pairwise.sublist (List.take_sublist 9 s.history) hpw
  · intro e he
    rcases List.mem_cons.mp he with rfl | hmem
    · exact Nat.lt_succ_self _
    · exact lt_of_lt_of_le (hts e ((List.take_sublist 9 s.history).subset hmem))
        (Nat.le_succ _)

theorem invH_record {s : AppState} (hs : InvH s) (requirements code : List Char) :
    InvH (saveToHistory requirements code s) := by
  have hlog := goodLog_record hs.1 requirements code
  refine ⟨hlog, ?_⟩
  intro v hv
  refine ⟨(saveToHistory requirements code s).history, ?_, hlog⟩
  simpa [saveToHistory] using hv.symm

theorem invH_stepH {s s' : AppState} {op : HOp} (hs : InvH s)
    (h : stepH s op = Except.ok s') : InvH s' := by
  cases op with
  | record requirements code =>
      simp only [stepH, Except.ok.injEq] at h
      exact h ▸ invH_record hs requirements code
  | load =>
      cases hstore : s.storage with
      | none =>
          simp only [stepH, hstore, loadSavedHistory, Except.ok.injEq] at h
          subst h
          exact ⟨hs.1, fun v hv => by simp [hstore] at hv⟩
      | some v =>
          obtain ⟨l, rfl, hl⟩ := hs.2 v hstore
          simp only [stepH, hstore, loadSavedHistory, Except.ok.injEq] at h
          subst h
          exact ⟨hl, fun w hw => ⟨l, (Option.some.inj hw).symm, hl⟩⟩
  | clear =>
      simp only [stepH, clearHistory, Except.ok.injEq] at h
      subst h
      refine ⟨⟨by simp, by simp [newestFirst], by simp⟩, ?_⟩
      intro v hv
      simp at hv

theorem invH_runH : ∀ (ops : List HOp) (s s' : AppState), InvH s →
    runH s ops = Except.ok s' → InvH s' := by
  intro ops
  induction ops with
  | nil =>
      intro s s' hs h
      simp only [runH, Except.ok.injEq] at h
      exact h ▸ hs
  | cons op rest ih =>
      intro s s' hs h
      simp only [runH] at h
      cases hstep : stepH s op with
      | ok s1 =>
          rw [hstep] at h
          exact ih s1 s' (invH_stepH hs hstep) h
      | error e =>
          rw [hstep] at h
          exact absurd h (by simp)

/-- Eleven consecutive `record` calls with the given requirement and code
texts, as an operation sequence. -/
def ops11 (f g : Nat → List Char) : List HOp :=
  [HOp.record (f 0) (g 0), HOp.record (f 1) (g 1), HOp.record (f 2) (g 2),
   HOp.record (f 3) (g 3), HOp.record (f 4) (g 4), HOp.record (f 5) (g 5),
   HOp.record (f 6) (g 6), HOp.record (f 7) (g 7), HOp.record (f 8) (g 8),
   HOp.record (f 9) (g 9), HOp.record (f 10) (g 10)]

/-! ### Claim theorems -/

/-- C6: `getTestType` returns `manual_ui` exactly when the lowercased text
contains one of the fixed UI keywords as a bare substring (no word-boundary
check), and `auto_api` otherwise; in particular the two example requirements
classify as stated.  Determinism is inherent: `getTestType` is a pure
function of the text. -/
theorem c6_classifier_keyword_iff (text : List Char) :
    (getTestType text = "manual_ui".toList ↔
      (SubstringOf ("ui".toList) (text.map jsToLower) ∨
       SubstringOf ("интерфейс".toList) (text.map jsToLower) ∨
       SubstringOf ("калькулятор".toList) (text.map jsToLower))) ∧
    (getTestType text = "manual_ui".toList ∨
     getTestType text = "auto_api".toList) ∧
    getTestType ("Тест интерфейса калькулятора".toList) = "manual_ui".toList ∧
    getTestType ("Создай тест для API VM".toList) = "auto_api".toList := by
  refine ⟨?_, ?_, by decide, by decide⟩
  · simp only [getTestType]
    split_ifs with h
    · refine iff_of_true rfl ?_
      simp only [Bool.or_eq_true] at h
      rcases h with (h | h) | h
      · exact Or.inl ((includes_iff _ _).mp h)
      · exact Or.inr (Or.inl ((includes_iff _ _).mp h))
      · exact Or.inr (Or.inr ((includes_iff _ _).mp h))
    · refine iff_of_false (by decide) ?_
      intro hcon
      apply h
      simp only [Bool.or_eq_true]
      rcases hcon with h1 | h1 | h1
      · exact Or.inl (Or.inl ((includes_iff _ _).mpr h1))
      · exact Or.inl (Or.inr ((includes_iff _ _).mpr h1))
      · exact Or.inr ((includes_iff _ _).mpr h1)
  · simp only [getTestType]
    split_ifs
    · exact Or.inl rfl
    · exact Or.inr rfl

/-- Witness for C6: the first example requirement is classified `manual_ui`. -/
theorem c6_classifier_keyword_iff_witness :
    getTestType ("Тест интерфейса калькулятора".toList) = "manual_ui".toList :=
  (c6_classifier_keyword_iff []).2.2.1

/-- C8: for every non-empty requirement text, the `description` field of the
synthesized spec is the input text itself, verbatim. -/
theorem c8_description_verbatim (text : List Char) (_h : text ≠ []) :
    (createOpenAPIFromText text).info.description = text := rfl

/-- Witness for C8 at a concrete non-empty requirement. -/
theorem c8_description_verbatim_witness :
    "Создай тест".toList ≠ [] ∧
    (createOpenAPIFromText ("Создай тест".toList)).info.description =
      "Создай тест".toList :=
  ⟨by decide, c8_description_verbatim ("Создай тест".toList) (by decide)⟩

/-- A concrete requirement text of 31 characters, used to refute C1 as
stated. -/
def ex31 : List Char := "abcdefghijklmnopqrstuvwxyz01234".toList

/-- Counterexample to C1 as stated: for this 31-character text the title is
`TestOps - abcdefghijklmnopqrstuvwxyz0123...` — its first 30 characters are
not the first 30 characters of the text, and its length is 43, not at most
33 (the fixed `TestOps - ` marker precedes the truncated text). -/
theorem c1_counterexample :
    ¬ ((createOpenAPIFromText ex31).info.title.take 30 = ex31.take 30 ∧
       (createOpenAPIFromText ex31).info.title.length ≤ 33) := by
  decide

/-- C1 (amended): for text longer than 30 characters the title is the fixed
text `TestOps - ` followed by the first 30 characters of the text and the
3-character ellipsis marker — so it ends with the marker and has length
exactly 43; for text of 30 characters or fewer the title is `TestOps - `
followed by the whole text, with no marker appended, of length
`10 + text.length`. -/
theorem c1_title_truncation (text : List Char) :
    (30 < text.length →
      (createOpenAPIFromText text).info.title =
        "TestOps - ".toList ++ text.take 30 ++ "...".toList ∧
      (∃ p, (createOpenAPIFromText text).info.title = p ++ "...".toList) ∧
      (createOpenAPIFromText text).info.title.length = 43) ∧
    (text.length ≤ 30 →
      (createOpenAPIFromText text).info.title = "TestOps - ".toList ++ text ∧
      (createOpenAPIFromText text).info.title.length = 10 + text.length) := by
  constructor
  · intro h
    have ht : (createOpenAPIFromText text).info.title =
        "TestOps - ".toList ++ text.take 30 ++ "...".toList := by
      simp [createOpenAPIFromText, h]
    refine ⟨ht, ⟨"TestOps - ".toList ++ text.take 30, by simp [ht]⟩, ?_⟩
    have hlen : (text.take 30).length = 30 := by
      simp [List.length_take]
      omega
    simp [ht, hlen]
  · intro h
    have hnot : ¬ (30 < text.length) := by omega
    have htake : text.take 30 = text := List.take_of_length_le h
    constructor
    · simp [createOpenAPIFromText, hnot, htake]
    · simp [createOpenAPIFromText, hnot, htake]
      omega

/-- Witness for C1 (amended) at the concrete 31-character text `ex31`. -/
theorem c1_title_truncation_witness :
    (createOpenAPIFromText ex31).info.title =
      "TestOps - abcdefghijklmnopqrstuvwxyz0123...".toList ∧
    (createOpenAPIFromText ex31).info.title.length = 43 := by
  have h := (c1_title_truncation ex31).1 (by decide)
  exact ⟨h.1.trans (by decide), h.2.2⟩

/-- C2: at every state reachable from the initial state by `record`, `load`
and `clear` operations, the in-memory history holds at most 10 entries
ordered strictly newest-first, and so does any log held by the persistence
medium (hence also any log obtained by `load`); moreover after 11 `record`
calls the ten most recent entries remain, newest-first, and the entry from
the first call (creation instant 0) is absent. -/
theorem c2_history_bounded :
    (∀ (ops : List HOp) (s : AppState), runH initState ops = Except.ok s →
      s.history.length ≤ 10 ∧ newestFirst s.history ∧
      ∀ v, s.storage = some v →
        ∃ l, v = StoredValue.good l ∧ l.length ≤ 10 ∧ newestFirst l) ∧
    (∀ f g : Nat → List Char,
      ∃ t, runH initState (ops11 f g) = Except.ok t ∧
        t.history.map (fun e => e.requirements) =
          [f 10, f 9, f 8, f 7, f 6, f 5, f 4, f 3, f 2, f 1] ∧
        t.history.map (fun e => e.timestamp) = [10, 9, 8, 7, 6, 5, 4, 3, 2, 1] ∧
        ∀ e ∈ t.history, e.timestamp ≠ 0) := by
  constructor
  · intro ops s h
    have hinv := invH_runH ops initState s invH_init h
    exact ⟨hinv.1.1, hinv.1.2.1, fun v hv =>
      (hinv.2 v hv).imp fun l hl => ⟨hl.1, hl.2.1, hl.2.2.1⟩⟩
  · intro f g
    obtain ⟨t, h1, h2, h3⟩ :
        ∃ t, runH initState (ops11 f g) = Except.ok t ∧
          t.history.map (fun e => e.requirements) =
            [f 10, f 9, f 8, f 7, f 6, f 5, f 4, f 3, f 2, f 1] ∧
          t.history.map (fun e => e.timestamp) =
            [10, 9, 8, 7, 6, 5, 4, 3, 2, 1] := ⟨_, rfl, rfl, rfl⟩
    refine ⟨t, h1, h2, h3, ?_⟩
    intro e he
    have hmem : e.timestamp ∈ t.history.map (fun e => e.timestamp) :=
      List.mem_map_of_mem _ he
    rw [h3] at hmem
    simp only [List.mem_cons, List.not_mem_nil, or_false] at hmem
    rcases hmem with h | h | h | h | h | h | h | h | h | h <;> omega

/-- Witness for C2: one concrete `record` run satisfies the bound and the
ordering. -/
theorem c2_history_bounded_witness :
    (saveToHistory ("r".toList) ("c".toList) initState).history.length ≤ 10 ∧
    newestFirst (saveToHistory ("r".toList) ("c".toList) initState).history := by
  have h := c2_history_bounded.1 [HOp.record ("r".toList) ("c".toList)]
    (saveToHistory ("r".toList) ("c".toList) initState) rfl
  exact ⟨h.1, h.2.1⟩

/-- C7: from any state, `record(requirement, code)` followed immediately by
`load` yields a log whose first entry carries that requirement; its code
snippet is `code` unchanged when `code` has at most 500 characters, and
otherwise is the first 500 characters of `code` followed by the 3-character
ellipsis marker, for a total of exactly 503 characters. -/
theorem c7_record_then_load (s : AppState) (requirements code : List Char) :
    ∃ t e, runH s [HOp.record requirements code, HOp.load] = Except.ok t ∧
      t.history.head? = some e ∧
      e.requirements = requirements ∧
      (code.length ≤ 500 → e.code = code) ∧
      (500 < code.length →
        e.code = code.take 500 ++ "...".toList ∧ e.code.length = 503) := by
  refine ⟨_, _, rfl, rfl, rfl, ?_, ?_⟩
  · intro h
    simp [Nat.not_lt.mpr h, List.take_of_length_le h]
  · intro h
    have hmin : (code.take 500).length = 500 := by
      simp [List.length_take]
      omega
    constructor
    · simp [h]
    · simp [h, hmin]

/-- Witness for C7 at concrete inputs (short code, stored unchanged). -/
theorem c7_record_then_load_witness :
    ∃ t e,
      runH initState [HOp.record ("r".toList) ("c".toList), HOp.load] =
        Except.ok t ∧
      t.history.head? = some e ∧
      e.requirements = "r".toList ∧ e.code = "c".toList := by
  obtain ⟨t, e, h1, h2, h3, h4, -⟩ :=
    c7_record_then_load initState ("r".toList) ("c".toList)
  exact ⟨t, e, h1, h2, h3, h4 (by decide)⟩

/-- C10: from any prior state of the history store, `clear` empties the
in-memory log and removes the persisted form entirely, so a subsequent
`load` still yields an empty log and an empty medium. -/
theorem c10_clear_then_load (s : AppState) :
    ∃ t, runH s [HOp.clear, HOp.load] = Except.ok t ∧
      t.history = [] ∧ t.storage = none :=
  ⟨_, rfl, rfl, rfl⟩

/-- Counterexample to C3 as stated: a corrupt persisted form does not make
the mount-time load return the empty log without error.  With the stored
text `oops` (not valid JSON) the `JSON.parse` of `App.tsx` line 20 throws —
nothing wraps it in `try`/`catch` — and with the stored text `42` (valid
JSON of the wrong shape) the parse succeeds and the malformed value `42` is
silently installed as the history, which is not the empty log either. -/
theorem c3_corrupt_load_counterexample :
    loadSavedHistory (some (StoredValue.invalid ("oops".toList))) [] ≠
      Except.ok (HistoryCell.wellTyped []) ∧
    loadSavedHistory (some (StoredValue.jsonOther ("42".toList))) [] ≠
      Except.ok (HistoryCell.wellTyped []) := by
  refine ⟨?_, ?_⟩ <;> simp [loadSavedHistory]

/-- C3 (amended): `load` returns the persisted log when one exists and is
well-formed, and returns the current (initially empty) log when no persisted
form exists or it is the empty (falsy) string — but a corrupt persisted form
is not treated as "no history": when it is valid JSON of some other shape,
the parsed malformed value is silently installed as the history without any
error, and when it is not valid JSON at all, the `JSON.parse` error
propagates out of the load instead of yielding an empty log. -/
theorem c3_load_error_propagation :
    (∀ current : List HistoryItem,
      loadSavedHistory none current = Except.ok (HistoryCell.wellTyped current)) ∧
    (∀ (entries current : List HistoryItem),
      loadSavedHistory (some (StoredValue.good entries)) current =
        Except.ok (HistoryCell.wellTyped entries)) ∧
    (∀ (raw : List Char) (current : List HistoryItem),
      loadSavedHistory (some (StoredValue.jsonOther raw)) current =
        Except.ok (HistoryCell.malformed raw)) ∧
    (∀ (raw : List Char) (current : List HistoryItem), raw ≠ [] →
      loadSavedHistory (some (StoredValue.invalid raw)) current =
        Except.error raw) ∧
    (∀ current : List HistoryItem,
      loadSavedHistory (some (StoredValue.invalid [])) current =
        Except.ok (HistoryCell.wellTyped current)) ∧
    (∀ s : AppState, s.storage = none → stepH s HOp.load = Except.ok s) := by
  refine ⟨fun current => rfl, fun entries current => rfl,
    fun raw current => rfl, ?_, fun current => rfl, ?_⟩
  · intro raw current hraw
    simp [loadSavedHistory, hraw]
  · intro s hnone
    obtain ⟨i, o, ld, h, st, ck⟩ := s
    simp only at hnone
    subst hnone
    rfl

/-- Witness for C3 (amended): a concrete unparseable persisted form makes
the load fail with the raw text as error. -/
theorem c3_load_error_propagation_witness :
    loadSavedHistory (some (StoredValue.invalid ("oops".toList))) [] =
      Except.error ("oops".toList) :=
  c3_load_error_propagation.2.2.2.1 ("oops".toList) [] (by decide)

/-- A component state with a non-empty requirement typed into the input
field, ready to dispatch. -/
def readyState : AppState :=
  { initState with input := "Создай тест".toList }

/-- A component state with a dispatch pending (`loading` raised) and a
non-empty requirement still in the input field. -/
def busyState : AppState :=
  { initState with input := "Создай тест".toList, loading := true }

/-- A backend response whose status discriminator is not `success`. -/
def failResponse : BackendResponse :=
  { status := "error".toList, code_text := [], message := some ("boom".toList) }

/-- When the trimmed input is non-empty, `handleGenerate` raises the loading
flag, sets the progress message, and resolves the fetch outcome. -/
theorem handleGenerate_of_ne (s : AppState) (outcome : FetchOutcome)
    (h : trimList s.input ≠ []) :
    handleGenerate s outcome =
      resolveGenerate
        { s with loading := true
               , output := "Отправка запроса на сервер...".toList } outcome := by
  simp [handleGenerate, handleGenerateStart, h]

/-- On a response whose status is not `success`, the resolution step only
sets the failure output and clears the loading flag. -/
theorem resolveGenerate_fail (s : AppState) (data : BackendResponse)
    (hst : data.status ≠ "success".toList) :
    resolveGenerate s (FetchOutcome.ok data) =
      { s with output := "Ошибка бекенда: ".toList ++
          jsOrElse data.message ("Неизвестная ошибка".toList)
             , loading := false } := by
  simp only [resolveGenerate]
  rw [if_neg hst]

/-- C4 (code bug): while a dispatch is pending the generate button is inert
(`disabled={loading}`), but the Ctrl+Enter / Meta+Enter keyboard shortcut
invokes `handleGenerate` without consulting the `loading` flag, so a second
dispatch starts from the same control while one is pending; the `finally`
clause does return the flag to idle on success and on failure alike. -/
theorem c4_keyboard_trigger_not_gated :
    busyState.loading = true ∧
    (clickGenerate busyState).2 = false ∧
    (onKeyDown busyState ("Enter".toList) true false).2 = true ∧
    (onKeyDown busyState ("Enter".toList) false true).2 = true ∧
    (resolveGenerate busyState (FetchOutcome.ok
      { status := "success".toList, code_text := "x".toList,
        message := none })).loading = false ∧
    (resolveGenerate busyState
      (FetchOutcome.networkError ("x".toList))).loading = false := by
  exact ⟨rfl, rfl, by decide, by decide, rfl, rfl⟩

/-- Counterexample to C5 as stated: for a failure response carrying message
`boom`, the surfaced failure message is not `boom` itself — the code prepends
the fixed text `Ошибка бекенда: `. -/
theorem c5_counterexample :
    (handleGenerate readyState (FetchOutcome.ok failResponse)).output ≠
      "boom".toList := by
  decide

/-- C5 (amended): for every backend response whose status discriminator is
not `success`, the action surfaces a failure message that is the fixed text
`Ошибка бекенда: ` followed by the backend's `message` field — or by the
generic fallback `Неизвестная ошибка` when that field is absent or empty
(falsy) — no history entry is written, the persisted history is untouched,
and the loading flag is cleared. -/
theorem c5_backend_failure (s : AppState) (data : BackendResponse)
    (hin : trimList s.input ≠ []) (hst : data.status ≠ "success".toList) :
    (∀ m, data.message = some m → m ≠ [] →
      (handleGenerate s (FetchOutcome.ok data)).output =
        "Ошибка бекенда: ".toList ++ m) ∧
    ((data.message = none ∨ data.message = some []) →
      (handleGenerate s (FetchOutcome.ok data)).output =
        "Ошибка бекенда: ".toList ++ "Неизвестная ошибка".toList) ∧
    (handleGenerate s (FetchOutcome.ok data)).history = s.history ∧
    (handleGenerate s (FetchOutcome.ok data)).storage = s.storage ∧
    (handleGenerate s (FetchOutcome.ok data)).loading = false := by
  rw [handleGenerate_of_ne s (FetchOutcome.ok data) hin,
    resolveGenerate_fail _ data hst]
  refine ⟨?_, ?_, rfl, rfl, rfl⟩
  · intro m hm hme
    simp [jsOrElse, hm, hme]
  · rintro (hm | hm) <;> simp [jsOrElse, hm]

/-- Witness for C5 (amended) at a concrete failing response. -/
theorem c5_backend_failure_witness :
    (handleGenerate readyState (FetchOutcome.ok failResponse)).output =
      "Ошибка бекенда: boom".toList ∧
    (handleGenerate readyState (FetchOutcome.ok failResponse)).history =
      readyState.history := by
  have h := c5_backend_failure readyState failResponse (by decide) (by decide)
  exact ⟨(h.1 ("boom".toList) rfl (by decide)).trans (by decide), h.2.2.1⟩

/-- C9: for a non-success HTTP status or a transport-level fetch error, the
action surfaces a failure message carrying the underlying cause (the thrown
`HTTP status: statusText` text, respectively the network error message),
raises nothing to the caller (the `catch` branch turns the fault into
output), writes no history entry, leaves the persisted history untouched,
and the `finally` clause returns the surface to the ready state. -/
theorem c9_transport_failure (s : AppState) (st : Nat) (stxt m : List Char)
    (hin : trimList s.input ≠ []) :
    ((handleGenerate s (FetchOutcome.httpError st stxt)).output =
        "Ошибка: ".toList ++ ("HTTP ".toList ++ (toString st).toList ++
          ": ".toList ++ stxt) ++ "\n\nНеверный формат требования".toList ∧
      (handleGenerate s (FetchOutcome.httpError st stxt)).history = s.history ∧
      (handleGenerate s (FetchOutcome.httpError st stxt)).storage = s.storage ∧
      (handleGenerate s (FetchOutcome.httpError st stxt)).loading = false) ∧
    ((handleGenerate s (FetchOutcome.networkError m)).output =
        "Ошибка: ".toList ++ m ++ "\n\nНеверный формат требования".toList ∧
      (handleGenerate s (FetchOutcome.networkError m)).history = s.history ∧
      (handleGenerate s (FetchOutcome.networkError m)).storage = s.storage ∧
      (handleGenerate s (FetchOutcome.networkError m)).loading = false) := by
  rw [handleGenerate_of_ne s (FetchOutcome.httpError st stxt) hin,
    handleGenerate_of_ne s (FetchOutcome.networkError m) hin]
  exact ⟨⟨rfl, rfl, rfl, rfl⟩, ⟨rfl, rfl, rfl, rfl⟩⟩

/-- Witness for C9 at a concrete connection failure. -/
theorem c9_transport_failure_witness :
    (handleGenerate readyState
        (FetchOutcome.networkError ("Failed to fetch".toList))).output =
      "Ошибка: Failed to fetch\n\nНеверный формат требования".toList ∧
    (handleGenerate readyState
        (FetchOutcome.networkError ("Failed to fetch".toList))).loading =
      false := by
  have h := c9_transport_failure readyState 500 ("Internal Server Error".toList)
    ("Failed to fetch".toList) (by decide)
  exact ⟨(h.2.1).trans (by decide), h.2.2.2.2⟩

end TestOps
